import Mathlib

/-!
Verification development for the carsensor used-vehicle listing pipeline.

The definitions below are a shallow embedding of the JavaScript source:
`dataProcessor` (field parsers, record ingestion, price statistics,
transmission classification, quality checking) and the dashboard's
deduplication, filtering and least-squares forecasting.  JavaScript
numbers are modelled as rationals, JS `null`/`undefined` and `NaN`
parse failures as `Option.none`, and ambient state (the random-date
fallback and the system clock read by `parseDate`) as an explicit
environment value threaded through the parsers.
-/

namespace Carsensor

/-- Model of a loosely typed JavaScript cell value: a number, a string,
or `null`/`undefined`. -/
inductive JSVal where
  | num (q : ℚ)
  | str (s : String)
  | null
deriving DecidableEq, Repr

/-- `Math.round(x * 10) / 10`: rounding to one decimal, half away from
negative infinity, exactly as JS `Math.round` (which is `⌊x + 1/2⌋`). -/
def round1 (q : ℚ) : ℚ := ((round (q * 10) : ℤ) : ℚ) / 10

/-- Value of a list of decimal digit characters read left to right. -/
def digitsToNat (cs : List Char) : ℕ :=
  cs.foldl (fun a c => 10 * a + (c.toNat - 48)) 0

/-- Model of JS `parseFloat` on decimal notation: skip leading blanks,
optional sign, leading digits, optional dot and fraction digits,
ignoring any trailing characters; `none` models a `NaN` result.
(Exponent notation and `Infinity`, unused by the data formats of this
repository, are not modelled.) -/
def jsParseFloat (cs : List Char) : Option ℚ :=
  let body := fun (ds : List Char) =>
    let intPart := ds.takeWhile Char.isDigit
    let rest := ds.dropWhile Char.isDigit
    match rest with
    | '.' :: rest2 =>
      let fracPart := rest2.takeWhile Char.isDigit
      if intPart.isEmpty && fracPart.isEmpty then none
      else some ((digitsToNat intPart : ℚ) +
        (digitsToNat fracPart : ℚ) / (10 : ℚ) ^ fracPart.length)
    | _ => if intPart.isEmpty then none else some (digitsToNat intPart : ℚ)
  let ws := cs.dropWhile (fun c => c == ' ' || c == '\t' || c == '\n' || c == '\r')
  match ws with
  | '-' :: rest => (body rest).map (fun x => -x)
  | '+' :: rest => body rest
  | _ => body ws

/-- Character class `[0-9.]` of the price and mileage regexes. -/
def isPriceChar (c : Char) : Bool := c.isDigit || c == '.'

/-- Model of a leftmost regex search for `(<cls>+)<suffix>`: scanning
left to right, capture the maximal run of class characters that is
immediately followed by the literal suffix.  (Backtracking inside a
run cannot succeed when the suffix starts outside the class, so the
first successful start position is always the start of a maximal run,
matching the JS regexes `([0-9.]+)万円`, `([0-9.]+)万km`, `([0-9.]+)km`
and `(\d+)CC`.) -/
def findCapture (cls : Char → Bool) (suffix : List Char) : List Char → Option (List Char)
  | [] => none
  | c :: rest =>
    if cls c && suffix.isPrefixOf (rest.dropWhile cls) then
      some (c :: rest.takeWhile cls)
    else findCapture cls suffix rest

/-- Model of a leftmost regex search for `(\d{4})`: the first window of
four consecutive digit characters. -/
def findFourDigits : List Char → Option (List Char)
  | a :: b :: c :: d :: rest =>
    if a.isDigit && b.isDigit && c.isDigit && d.isDigit then some [a, b, c, d]
    else findFourDigits (b :: c :: d :: rest)
  | _ => none

/-- Model of JS `String.prototype.includes`: `jsIncludesL pat l` holds
when `pat` occurs as a contiguous run inside `l`. -/
def jsIncludesL (pat : List Char) : List Char → Bool
  | [] => pat.isEmpty
  | c :: rest => pat.isPrefixOf (c :: rest) || jsIncludesL pat rest

/-- Ambient state read by the impure date fallbacks of `parseDate`:
the `Math.random()` draws for month and day and the current date from
`new Date()`. -/
structure Env where
  randMonth : ℕ
  randDay : ℕ
  todayStr : String
deriving DecidableEq, Repr

/-- `parsePrice` (dataProcessor): an already numeric value is passed
through unchecked; a textual value must match `([0-9.]+)万円` and the
parsed number must lie in [10, 3000]; otherwise `none` (JS `null`). -/
def parsePrice (_env : Env) (v : JSVal) : Option ℚ :=
  match v with
  | .num q => some q
  | .null => none
  | .str s =>
    if s == "" then none
    else
      match findCapture isPriceChar ['万', '円'] s.toList with
      | none => none
      | some run =>
        match jsParseFloat run with
        | none => none
        | some price => if 10 ≤ price ∧ price ≤ 3000 then some price else none

/-- `parseYear` (dataProcessor): a numeric value is accepted iff it is
within [2010, 2026]; a textual value must contain a 4-digit run whose
value is within [2010, 2026]. -/
def parseYear (_env : Env) (v : JSVal) : Option ℚ :=
  match v with
  | .num q => if 2010 ≤ q ∧ q ≤ 2026 then some q else none
  | .null => none
  | .str s =>
    if s == "" then none
    else
      match findFourDigits s.toList with
      | none => none
      | some ds =>
        let year : ℚ := (digitsToNat ds : ℚ)
        if 2010 ≤ year ∧ year ≤ 2026 then some year else none

/-- `parseMileage` (dataProcessor): a numeric value is accepted iff
non-negative; a textual value containing `万km` is parsed via
`([0-9.]+)万km` and multiplied by 10000, else one containing `km` via
`([0-9.]+)km`; the result must be non-negative. -/
def parseMileage (_env : Env) (v : JSVal) : Option ℚ :=
  match v with
  | .num q => if 0 ≤ q then some q else none
  | .null => none
  | .str s =>
    if s == "" then none
    else
      let cs := s.toList
      if jsIncludesL ['万', 'k', 'm'] cs then
        match findCapture isPriceChar ['万', 'k', 'm'] cs with
        | none => none
        | some run =>
          match jsParseFloat run with
          | none => none
          | some x =>
            let mileage := x * 10000
            if 0 ≤ mileage then some mileage else none
      else if jsIncludesL ['k', 'm'] cs then
        match findCapture isPriceChar ['k', 'm'] cs with
        | none => none
        | some run =>
          match jsParseFloat run with
          | none => none
          | some mileage => if 0 ≤ mileage then some mileage else none
      else none

/-- `parseDisplacement` (dataProcessor): extract `(\d+)CC` with no range
check.  `String(n)` of a bare number never contains the `CC` suffix, so
numeric input always yields `none`, as does `null`/empty input. -/
def parseDisplacement (_env : Env) (v : JSVal) : Option ℕ :=
  match v with
  | .null => none
  | .num _ => none
  | .str s =>
    if s == "" then none
    else (findCapture Char.isDigit ['C', 'C'] s.toList).map digitsToNat

/-- `String(n).padStart(2, '0')` for the fallback date components. -/
def pad2 (n : ℕ) : String := if n < 10 then "0" ++ toString n else toString n

/-- The random 2025 fallback date built by `parseDate` when the input is
absent: month drawn from 1..6 and day from 1..28 via `Math.random()`,
modelled by the environment's random draws. -/
def fallback2025 (env : Env) : String :=
  "2025-" ++ pad2 (env.randMonth % 6 + 1) ++ "-" ++ pad2 (env.randDay % 28 + 1)

/-- `/^\d{4}-\d{2}-\d{2}$/`. -/
def matchesYMD (s : String) : Bool :=
  match s.toList with
  | [y1, y2, y3, y4, h1, m1, m2, h2, d1, d2] =>
    y1.isDigit && y2.isDigit && y3.isDigit && y4.isDigit && h1 == '-' &&
    m1.isDigit && m2.isDigit && h2 == '-' && d1.isDigit && d2.isDigit
  | _ => false

/-- The single failure mode of the parsers: `parseDate` calls
`.includes` on its argument, which throws a `TypeError` when the
argument is a (truthy) number. -/
inductive JSError where
  | typeError
deriving DecidableEq, Repr

/-- `parseDate` (dataProcessor): a falsy input yields the random 2025
fallback; a string containing the time separator `T` is cut at the first
`T`; a `YYYY-MM-DD` string passes through; any other string is replaced
by today's date; a truthy numeric input throws. -/
def parseDate (env : Env) (v : JSVal) : Except JSError String :=
  match v with
  | .null => .ok (fallback2025 env)
  | .num q => if q == 0 then .ok (fallback2025 env) else .error .typeError
  | .str s =>
    if s == "" then .ok (fallback2025 env)
    else if s.toList.contains 'T' then .ok ((s.splitOn "T").headD "")
    else if matchesYMD s then .ok s
    else .ok env.todayStr

/-- One raw CSV row, restricted to the fields read by the validating
part of `processCarData`. -/
structure RawRow where
  «支払総額» : JSVal
  «年式» : JSVal
  «走行距離» : JSVal
  «マッチング精度» : JSVal
  «取得日時» : JSVal
deriving DecidableEq, Repr

/-- The validated numeric projection of one ingested listing. -/
structure IngestListing where
  price : ℚ
  year : ℚ
  mileage : ℚ
  «マッチング精度» : ℚ
deriving DecidableEq, Repr

/-- The match-score block of `processCarData`: the default 0.8 is kept
unless the field is truthy (non-empty string, nonzero number) and
`parseFloat` of it yields a number within [0, 1]. -/
def matchScoreOf (v : JSVal) : ℚ :=
  match v with
  | .null => 0.8
  | .num q => if q ≠ 0 ∧ 0 ≤ q ∧ q ≤ 1 then q else 0.8
  | .str s =>
    if s == "" then 0.8
    else
      match jsParseFloat s.toList with
      | none => 0.8
      | some score => if 0 ≤ score ∧ score ≤ 1 then score else 0.8

/-- `processCarData` (dataProcessor), restricted to the validated
fields: parse price, year and mileage, compute the match score, let a
`parseDate` exception skip the row (the per-row `try`/`catch`), and
keep only rows with all three parses successful, a strictly positive
price and a non-negative mileage. -/
def processCarData (env : Env) (rawData : List RawRow) : List IngestListing :=
  rawData.filterMap (fun row =>
    match parseDate env row.«取得日時» with
    | .error _ => none
    | .ok _ =>
      match parsePrice env row.«支払総額» with
      | none => none
      | some price =>
        match parseYear env row.«年式» with
        | none => none
        | some year =>
          match parseMileage env row.«走行距離» with
          | none => none
          | some mileage =>
            if 0 < price ∧ 0 ≤ mileage then
              some ⟨price, year, mileage, matchScoreOf row.«マッチング精度»⟩
            else none)

/-- The statistics object returned by `calculatePriceStats`. -/
structure PriceStats where
  mean : ℚ
  min : ℚ
  max : ℚ
  median : ℚ
  count : ℕ
deriving DecidableEq, Repr

/-- The filter of `calculatePriceStats`: keep values that are numbers
(not `null`/`undefined`/`NaN`/textual) and strictly positive. -/
def validPricesOf (prices : List JSVal) : List ℚ :=
  prices.filterMap (fun v =>
    match v with
    | .num q => if 0 < q then some q else none
    | _ => none)

/-- `calculatePriceStats` (dataProcessor): filter to strictly positive
numbers; all-zero statistics when nothing remains; otherwise the mean
(rounded to one decimal), least and greatest valid value (JS
`Math.min`/`Math.max` as a left fold), the median of the ascending
sort (average of the two central elements for an even count, rounded
to one decimal), and the count of valid values.  JS's numeric
ascending sort is modelled by insertion sort, which produces the same
(unique) sorted reordering. -/
def calculatePriceStats (prices : List JSVal) : PriceStats :=
  if prices.length = 0 then ⟨0, 0, 0, 0, 0⟩
  else
    match validPricesOf prices with
    | [] => ⟨0, 0, 0, 0, 0⟩
    | h :: t =>
      let validPrices := h :: t
      let sorted := List.insertionSort (· ≤ ·) validPrices
      let mean := validPrices.foldl (· + ·) 0 / (validPrices.length : ℚ)
      let median :=
        if sorted.length % 2 = 0 then
          (sorted.getD (sorted.length / 2 - 1) 0 + sorted.getD (sorted.length / 2) 0) / 2
        else sorted.getD (sorted.length / 2) 0
      ⟨round1 mean, t.foldl min h, t.foldl max h, round1 median, validPrices.length⟩

/-- `categorizeTransmission` (dataProcessor): lower-case the text and
classify by substring, CVT first, then the manual tokens, then the
automatic tokens; non-textual or falsy input and unrecognized text are
`"other"`. -/
def categorizeTransmission (v : JSVal) : String :=
  match v with
  | .num _ => "other"
  | .null => "other"
  | .str s =>
    if s == "" then "other"
    else
      let trans := s.toList.map Char.toLower
      if jsIncludesL "cvt".toList trans then "CVT"
      else if jsIncludesL "mt".toList trans ||
              jsIncludesL "マニュアル".toList trans ||
              jsIncludesL "manual".toList trans then "MT"
      else if jsIncludesL "at".toList trans ||
              jsIncludesL "オートマ".toList trans ||
              jsIncludesL "automatic".toList trans then "AT"
      else "other"

/-- A possibly invalid item fed to `checkDataQuality` (price, year and
mileage may be absent or non-numeric, grades may be empty). -/
structure QItem where
  price : Option ℚ
  year : Option ℚ
  mileage : Option ℚ
  «正規グレード» : String
  «元グレード» : String
deriving DecidableEq, Repr

/-- The price check of `checkDataQuality`:
`!item.price || typeof item.price !== 'number' || item.price <= 0`. -/
def priceBad (it : QItem) : Bool :=
  match it.price with
  | none => true
  | some p => decide (p = 0) || decide (p ≤ 0)

/-- The model-year check of `checkDataQuality`. -/
def yearBad (it : QItem) : Bool :=
  match it.year with
  | none => true
  | some y => decide (y = 0) || decide (y < 2010) || decide (y > 2026)

/-- The mileage check of `checkDataQuality` (`null`/`undefined` and
non-numbers are rejected explicitly; zero is allowed). -/
def mileageBad (it : QItem) : Bool :=
  match it.mileage with
  | none => true
  | some m => decide (m < 0)

/-- The grade check of `checkDataQuality`: both grade fields empty. -/
def gradeBad (it : QItem) : Bool :=
  it.«正規グレード» == "" && it.«元グレード» == ""

/-- The report returned by `checkDataQuality` (the `details` object is
flattened into the four per-category counts). -/
structure QualityReport where
  totalCount : ℕ
  validCount : ℕ
  qualityScore : ℚ
  issues : List String
  priceIssues : ℕ
  yearIssues : ℕ
  mileageIssues : ℕ
  gradeIssues : ℕ
deriving DecidableEq, Repr

/-- `checkDataQuality` (dataProcessor): per-category defect counts, a
record counting as valid iff it fails none of the four checks, the
percentage score rounded to one decimal, and one summary line per
failing category (or the fixed no-issues message). -/
def checkDataQuality (data : List QItem) : QualityReport :=
  if data.length = 0 then
    ⟨0, 0, 0, ["データが存在しません"], 0, 0, 0, 0⟩
  else
    let priceIssues := data.countP priceBad
    let yearIssues := data.countP yearBad
    let mileageIssues := data.countP mileageBad
    let gradeIssues := data.countP gradeBad
    let validCount := data.countP
      (fun it => !(priceBad it || yearBad it || mileageBad it || gradeBad it))
    let issues :=
      (if priceIssues > 0 then ["価格データに問題: " ++ toString priceIssues ++ "件"] else []) ++
      (if yearIssues > 0 then ["年式データに問題: " ++ toString yearIssues ++ "件"] else []) ++
      (if mileageIssues > 0 then ["走行距離データに問題: " ++ toString mileageIssues ++ "件"] else []) ++
      (if gradeIssues > 0 then ["グレードデータに問題: " ++ toString gradeIssues ++ "件"] else [])
    let qualityScore := ((validCount : ℚ) / (data.length : ℚ)) * 100
    ⟨data.length, validCount, round1 qualityScore,
      if issues.length > 0 then issues else ["データ品質に問題はありません"],
      priceIssues, yearIssues, mileageIssues, gradeIssues⟩

/-- One processed listing as consumed by the dashboard (the fields read
by deduplication and filtering). -/
structure Listing where
  price : ℚ
  year : ℚ
  mileage : ℚ
  «正規グレード» : String
  «元グレード» : String
  «ミッション» : String
  «修復歴» : String
deriving DecidableEq, Repr

/-- The identity comparison of the dashboard's dedup filter:
`t.price === item.price && t.year === item.year &&
t.mileage === item.mileage && t.正規グレード === item.正規グレード`. -/
def sameKey (t item : Listing) : Bool :=
  t.price == item.price && t.year == item.year &&
  t.mileage == item.mileage && t.«正規グレード» == item.«正規グレード»

/-- The dedup step of `processedData`: keep `rawData[i]` exactly when
`i` is the first index whose entry agrees with it on
(price, year, mileage, normalized grade). -/
def dedupListings (rawData : List Listing) : List Listing :=
  (rawData.enum.filter
    (fun p => rawData.findIdx (fun t => sameKey t p.2) == p.1)).map Prod.snd

/-- `processedData` (dashboard): dedup, and in `latest` mode keep only
the last 50 entries (`slice(-50)`). -/
def processedData (overviewMode : String) (rawData : List Listing) : List Listing :=
  if overviewMode == "latest" then
    let latestData := dedupListings rawData
    latestData.drop (latestData.length - 50)
  else dedupListings rawData

/-- The dedup identity key named by the specification. -/
def dkey (l : Listing) : ℚ × ℚ × ℚ × String :=
  (l.price, l.year, l.mileage, l.«正規グレード»)

/-- Keep the first occurrence, in input order, of each identity key:
the reference formulation of deduplication. -/
def keepFirsts : List Listing → List (ℚ × ℚ × ℚ × String) → List Listing
  | [], _ => []
  | x :: xs, seen =>
    if dkey x ∈ seen then keepFirsts xs seen
    else x :: keepFirsts xs (dkey x :: seen)

/-- The repair-history filter mode (`all` / `none` / `exists`). -/
inductive RepairFilter where
  | rAll
  | rNone
  | rExists
deriving DecidableEq, Repr

/-- The per-category transmission toggles. -/
structure TransmissionFilters where
  fAT : Bool
  fCVT : Bool
  fMT : Bool
  fOther : Bool
deriving DecidableEq, Repr

/-- `transmissionFilters[category]` for the four category names. -/
def transFilterLookup (tf : TransmissionFilters) (cat : String) : Bool :=
  if cat == "AT" then tf.fAT
  else if cat == "CVT" then tf.fCVT
  else if cat == "MT" then tf.fMT
  else if cat == "other" then tf.fOther
  else false

/-- The filter parameters read by `filteredData`. -/
structure FilterParams where
  showNormalizedGrades : Bool
  selectedGrades : List String
  yearMin : ℚ
  yearMax : ℚ
  mileageMax : ℚ
  priceMin : ℚ
  priceMax : ℚ
  transmissionFilters : TransmissionFilters
  repairHistoryFilter : RepairFilter
deriving DecidableEq, Repr

/-- `filteredData` (dashboard): the guard chain applied to each item,
returning `false` at the first failing predicate. -/
def filteredData (P : FilterParams) (data : List Listing) : List Listing :=
  data.filter (fun item =>
    let targetGrade := if P.showNormalizedGrades then item.«正規グレード» else item.«元グレード»
    if P.selectedGrades.length > 0 && !(P.selectedGrades.contains targetGrade) then false
    else if item.year < P.yearMin || item.year > P.yearMax then false
    else if item.mileage > P.mileageMax then false
    else if item.price < P.priceMin || item.price > P.priceMax then false
    else if !(transFilterLookup P.transmissionFilters
               (categorizeTransmission (.str item.«ミッション»))) then false
    else if P.repairHistoryFilter == .rNone && item.«修復歴» != "なし" then false
    else if P.repairHistoryFilter == .rExists && item.«修復歴» != "あり" then false
    else true)

/-- The grade predicate of `filteredData` (an empty selected set passes
everything). -/
def gradePass (P : FilterParams) (item : Listing) : Bool :=
  let targetGrade := if P.showNormalizedGrades then item.«正規グレード» else item.«元グレード»
  !(P.selectedGrades.length > 0 && !(P.selectedGrades.contains targetGrade))

/-- The model-year range predicate of `filteredData` (inclusive). -/
def yearPass (P : FilterParams) (item : Listing) : Bool :=
  !(item.year < P.yearMin || item.year > P.yearMax)

/-- The mileage ceiling predicate of `filteredData`. -/
def mileagePass (P : FilterParams) (item : Listing) : Bool :=
  !(item.mileage > P.mileageMax)

/-- The price range predicate of `filteredData` (inclusive). -/
def pricePass (P : FilterParams) (item : Listing) : Bool :=
  !(item.price < P.priceMin || item.price > P.priceMax)

/-- The transmission-category toggle predicate of `filteredData`. -/
def transPass (P : FilterParams) (item : Listing) : Bool :=
  transFilterLookup P.transmissionFilters (categorizeTransmission (.str item.«ミッション»))

/-- The repair-history predicate of `filteredData`. -/
def repairPass (P : FilterParams) (item : Listing) : Bool :=
  !(P.repairHistoryFilter == .rNone && item.«修復歴» != "なし") &&
  !(P.repairHistoryFilter == .rExists && item.«修復歴» != "あり")

/-- The six predicates of `filteredData` as a list. -/
def predList (P : FilterParams) : List (Listing → Bool) :=
  [gradePass P, yearPass P, mileagePass P, pricePass P, transPass P, repairPass P]

/-- `Σ x` of the forecaster: `trendData.reduce((acc, _, i) => acc + i, 0)`. -/
def olsSumX (means : List ℚ) : ℚ :=
  means.enum.foldl (fun acc p => acc + (p.1 : ℚ)) 0

/-- `Σ y` of the forecaster. -/
def olsSumY (means : List ℚ) : ℚ :=
  means.foldl (fun acc d => acc + d) 0

/-- `Σ x·y` of the forecaster. -/
def olsSumXY (means : List ℚ) : ℚ :=
  means.enum.foldl (fun acc p => acc + (p.1 : ℚ) * p.2) 0

/-- `Σ x²` of the forecaster. -/
def olsSumX2 (means : List ℚ) : ℚ :=
  means.enum.foldl (fun acc p => acc + (p.1 : ℚ) * (p.1 : ℚ)) 0

/-- The ordinary-least-squares slope computed by `forecastData`. -/
def olsSlope (means : List ℚ) : ℚ :=
  ((means.length : ℚ) * olsSumXY means - olsSumX means * olsSumY means) /
    ((means.length : ℚ) * olsSumX2 means - olsSumX means * olsSumX means)

/-- The ordinary-least-squares intercept computed by `forecastData`. -/
def olsIntercept (means : List ℚ) : ℚ :=
  (olsSumY means - olsSlope means * olsSumX means) / (means.length : ℚ)

/-- `forecastData` (dashboard), projected to the forecast prices: empty
unless the trend is in scraping mode with at least two buckets, else
the fitted line evaluated at the three ordinals `n`, `n+1`, `n+2`,
each rounded to one decimal. -/
def forecastData (scrapingMode : Bool) (means : List ℚ) : List ℚ :=
  if scrapingMode = false ∨ means.length < 2 then []
  else
    (List.range 3).map (fun i =>
      round1 (olsSlope means * ((means.length : ℚ) + (i : ℚ)) + olsIntercept means))

/-! ## Helper lemmas -/

/-- A successful textual price parse always lands in [10, 3000]: the
range check is the last guard of the string branch of `parsePrice`. -/
theorem parsePrice_str_range (env : Env) (s : String) (p : ℚ)
    (h : parsePrice env (.str s) = some p) : 10 ≤ p ∧ p ≤ 3000 := by
  simp only [parsePrice] at h
  split at h
  · exact absurd h (by simp)
  · split at h
    · exact absurd h (by simp)
    · split at h
      · exact absurd h (by simp)
      · split at h
        · rename_i hrange
          obtain rfl : _ = p := Option.some.inj h
          exact hrange
        · exact absurd h (by simp)

/-! ## Claim theorems -/

/-- C9 counterexample: `parseDate` is not a pure function of its input.
On an absent timestamp its output depends on the ambient random draws
(two runs differing only in ambient state give different dates), and on
a truthy numeric input it throws a `TypeError` instead of returning a
sentinel. -/
theorem parseDate_impure_counterexample :
    parseDate ⟨0, 0, "2099-12-31"⟩ .null ≠ parseDate ⟨1, 1, "2099-12-31"⟩ .null ∧
    parseDate ⟨0, 0, "2099-12-31"⟩ (.num 1) = .error .typeError := by
  constructor
  · intro h
    have h2 : fallback2025 ⟨0, 0, "2099-12-31"⟩ = fallback2025 ⟨1, 1, "2099-12-31"⟩ :=
      Except.ok.inj h
    exact absurd h2 (by decide)
  · norm_num [parseDate]

/-- C9 amended: `parsePrice`, `parseYear`, `parseMileage` and
`parseDisplacement` are pure — their output never depends on the
ambient state, and absence of a valid value is the sentinel `none`,
never an exception.  `parseDate` is ambient-state independent only on
strings containing the time separator `T` or matching `YYYY-MM-DD`;
it never throws on textual or absent input (numeric input throws, see
the counterexample). -/
theorem parsers_pure_spec (e1 e2 : Env) (v : JSVal) (s : String) :
    parsePrice e1 v = parsePrice e2 v ∧
    parseYear e1 v = parseYear e2 v ∧
    parseMileage e1 v = parseMileage e2 v ∧
    parseDisplacement e1 v = parseDisplacement e2 v ∧
    (s.toList.contains 'T' = true ∨ matchesYMD s = true →
      parseDate e1 (.str s) = parseDate e2 (.str s)) ∧
    (∀ t : String, ∃ out, parseDate e1 (.str t) = .ok out) ∧
    (∃ out, parseDate e1 .null = .ok out) := by
  refine ⟨rfl, rfl, rfl, rfl, ?_, ?_, ⟨_, rfl⟩⟩
  · intro h
    by_cases hs : s = ""
    · subst hs
      exact absurd h (by decide)
    · have hsb : (s == "") = false := by simp [hs]
      rcases h with h | h
      · have hm : 'T' ∈ s.data := by simpa using h
        simp [parseDate, hsb, hm]
      · by_cases hT : 'T' ∈ s.data
        · simp [parseDate, hsb, hT]
        · simp [parseDate, hsb, hT, h]
  · intro t
    by_cases ht : t = ""
    · subst ht
      exact ⟨_, rfl⟩
    · have htb : (t == "") = false := by simp [ht]
      simp only [parseDate, htb, Bool.false_eq_true, if_false]
      split
      · exact ⟨_, rfl⟩
      · split
        · exact ⟨_, rfl⟩
        · exact ⟨_, rfl⟩

/-- C9 witness. -/
theorem parsers_pure_witness :
    parseDate ⟨0, 0, "a"⟩ (.str "2024-01-02T10:00:00") =
      parseDate ⟨5, 6, "b"⟩ (.str "2024-01-02T10:00:00") :=
  (parsers_pure_spec ⟨0, 0, "a"⟩ ⟨5, 6, "b"⟩ .null "2024-01-02T10:00:00").2.2.2.2.1
    (Or.inl (by decide))

/-- C3 counterexample: an already numeric raw price is passed through
`parsePrice` with no range check, so `processCarData` emits a listing
whose price 5000 is outside [10, 3000]. -/
theorem processCarData_price_counterexample :
    (processCarData ⟨0, 0, ""⟩ [⟨.num 5000, .num 2020, .num 10000, .null, .null⟩]).map
      (fun l => l.price) = [5000] ∧ ¬ ((5000 : ℚ) ≤ 3000) := by
  constructor
  · norm_num [processCarData, parsePrice, parseYear, parseMileage, parseDate, matchScoreOf,
      List.filterMap]
  · norm_num

/-- C3 amended: every listing emitted by `processCarData` has a strictly
positive price, and comes from a row whose price field parses to that
price; when that raw price field was textual the price additionally lies
in [10, 3000] — a numeric raw price is passed through with only the
positivity check. -/
theorem processCarData_price_spec (env : Env) (rows : List RawRow) (l : IngestListing)
    (h : l ∈ processCarData env rows) :
    0 < l.price ∧
    ∃ row ∈ rows, parsePrice env row.«支払総額» = some l.price ∧
      ∀ s : String, row.«支払総額» = .str s → 10 ≤ l.price ∧ l.price ≤ 3000 := by
  simp only [processCarData, List.mem_filterMap] at h
  obtain ⟨row, hrow, hsome⟩ := h
  revert hsome
  split
  · intro hsome
    exact absurd hsome (by simp)
  · split
    · intro hsome
      exact absurd hsome (by simp)
    · rename_i price hp
      split
      · intro hsome
        exact absurd hsome (by simp)
      · rename_i year hy
        split
        · intro hsome
          exact absurd hsome (by simp)
        · rename_i mileage hm
          intro hsome
          split at hsome
          · rename_i hcond
            obtain rfl : _ = l := Option.some.inj hsome
            refine ⟨hcond.1, row, hrow, hp, ?_⟩
            intro s hs
            rw [hs] at hp
            exact parsePrice_str_range env s _ hp
          · exact absurd hsome (by simp)

/-- C3 witness. -/
theorem processCarData_price_witness :
    0 < (⟨100, 2020, 1000, 4/5⟩ : IngestListing).price ∧
    ∃ row ∈ [(⟨.num 100, .num 2020, .num 1000, .null, .null⟩ : RawRow)],
      parsePrice ⟨0, 0, ""⟩ row.«支払総額» = some (⟨100, 2020, 1000, 4/5⟩ : IngestListing).price ∧
      ∀ s : String, row.«支払総額» = .str s →
        10 ≤ (⟨100, 2020, 1000, 4/5⟩ : IngestListing).price ∧
        (⟨100, 2020, 1000, 4/5⟩ : IngestListing).price ≤ 3000 :=
  processCarData_price_spec ⟨0, 0, ""⟩ [⟨.num 100, .num 2020, .num 1000, .null, .null⟩]
    ⟨100, 2020, 1000, 4/5⟩
    (by norm_num [processCarData, parsePrice, parseYear, parseMileage, parseDate, matchScoreOf,
      List.filterMap])

/-- C4 counterexample: the raw match-score value `0` parses as a number
inside [0, 1], yet the ingested listing keeps the default 0.8, because
the numeric value `0` is falsy and the truthiness guard skips the
parse.  (The boundary 0 is reachable, but only from the textual field
`"0"`.) -/
theorem matchScore_counterexample :
    (0 ≤ (0 : ℚ) ∧ (0 : ℚ) ≤ 1) ∧
    matchScoreOf (.num 0) = 0.8 ∧ matchScoreOf (.num 0) ≠ 0 ∧
    (processCarData ⟨0, 0, ""⟩ [⟨.num 100, .num 2020, .num 1000, .num 0, .null⟩]).map
      (fun l => l.«マッチング精度») = [0.8] := by
  refine ⟨by norm_num, by norm_num [matchScoreOf], by norm_num [matchScoreOf], ?_⟩
  norm_num [processCarData, parsePrice, parseYear, parseMileage, parseDate, matchScoreOf,
    List.filterMap]

/-- C4 amended: the ingested match score equals the raw value exactly
when the field is truthy (a nonzero number, or a non-empty string) and
parses to a number in [0, 1]; it is the default 0.8 when the field is
absent, falsy (in particular the number 0), fails to parse, or parses
outside [0, 1].  The boundary value 0 is attainable via the string
`"0"`, and every emitted listing carries the match score computed from
its own row. -/
theorem matchScore_spec (env : Env) (rows : List RawRow) (l : IngestListing) :
    matchScoreOf .null = 0.8 ∧
    (∀ q : ℚ, q ≠ 0 → 0 ≤ q → q ≤ 1 → matchScoreOf (.num q) = q) ∧
    (∀ q : ℚ, ¬ (0 ≤ q ∧ q ≤ 1) → matchScoreOf (.num q) = 0.8) ∧
    matchScoreOf (.num 0) = 0.8 ∧
    (∀ (s : String) (x : ℚ), s ≠ "" → jsParseFloat s.toList = some x → 0 ≤ x → x ≤ 1 →
      matchScoreOf (.str s) = x) ∧
    (∀ (s : String) (x : ℚ), jsParseFloat s.toList = some x → ¬ (0 ≤ x ∧ x ≤ 1) →
      matchScoreOf (.str s) = 0.8) ∧
    (∀ s : String, jsParseFloat s.toList = none → matchScoreOf (.str s) = 0.8) ∧
    matchScoreOf (.str "0") = 0 ∧
    (l ∈ processCarData env rows →
      ∃ row ∈ rows, l.«マッチング精度» = matchScoreOf row.«マッチング精度») := by
  refine ⟨rfl, ?_, ?_, by norm_num [matchScoreOf], ?_, ?_, ?_, ?_, ?_⟩
  · intro q hq h0 h1
    simp [matchScoreOf, hq, h0, h1]
  · intro q hq
    have : ¬ (q ≠ 0 ∧ 0 ≤ q ∧ q ≤ 1) := fun ⟨_, h⟩ => hq h
    simp only [matchScoreOf, if_neg this]
  · intro s x hs hx h0 h1
    have hsb : (s == "") = false := by simp [hs]
    have hx2 : jsParseFloat s.data = some x := hx
    simp [matchScoreOf, hsb, hx, hx2, h0, h1]
  · intro s x hx hrange
    by_cases hs : s = ""
    · subst hs
      rfl
    · have hsb : (s == "") = false := by simp [hs]
      have hx2 : jsParseFloat s.data = some x := hx
      simp only [matchScoreOf, hsb, Bool.false_eq_true, if_false, hx, hx2, if_neg hrange]
  · intro s hx
    by_cases hs : s = ""
    · subst hs
      rfl
    · have hsb : (s == "") = false := by simp [hs]
      have hx2 : jsParseFloat s.data = none := hx
      simp [matchScoreOf, hsb, hx, hx2]
  · have h0 : digitsToNat ['0'] = 0 := by decide
    norm_num +decide [matchScoreOf, jsParseFloat, h0]
  · intro h
    simp only [processCarData, List.mem_filterMap] at h
    obtain ⟨row, hrow, hsome⟩ := h
    revert hsome
    split
    · intro hsome
      exact absurd hsome (by simp)
    · split
      · intro hsome
        exact absurd hsome (by simp)
      · split
        · intro hsome
          exact absurd hsome (by simp)
        · split
          · intro hsome
            exact absurd hsome (by simp)
          · intro hsome
            split at hsome
            · obtain rfl : _ = l := Option.some.inj hsome
              exact ⟨row, hrow, rfl⟩
            · exact absurd hsome (by simp)

/-- C4 witness. -/
theorem matchScore_witness :
    matchScoreOf (.num (1/2)) = 1/2 ∧ matchScoreOf (.num 2) = 0.8 :=
  ⟨(matchScore_spec ⟨0, 0, ""⟩ [] ⟨0, 0, 0, 0⟩).2.1 (1/2) (by norm_num) (by norm_num)
      (by norm_num),
   (matchScore_spec ⟨0, 0, ""⟩ [] ⟨0, 0, 0, 0⟩).2.2.1 2 (by norm_num)⟩

/-- `jsIncludesL` decides the contiguous-substring relation. -/
theorem jsIncludesL_iff (pat l : List Char) : jsIncludesL pat l = true ↔ pat <:+: l := by
  induction l with
  | nil =>
    simp [jsIncludesL, List.isEmpty_iff, List.infix_nil]
  | cons c rest ih =>
    simp [jsIncludesL, List.infix_cons_iff, List.isPrefixOf_iff_prefix, ih, Bool.or_eq_true]

/-- Unfolding of `categorizeTransmission` on a non-empty string. -/
theorem categorizeTransmission_str (s : String) (hs : (s == "") = false) :
    categorizeTransmission (.str s) =
      (if jsIncludesL "cvt".toList (s.toList.map Char.toLower) then "CVT"
       else if jsIncludesL "mt".toList (s.toList.map Char.toLower) ||
               jsIncludesL "マニュアル".toList (s.toList.map Char.toLower) ||
               jsIncludesL "manual".toList (s.toList.map Char.toLower) then "MT"
       else if jsIncludesL "at".toList (s.toList.map Char.toLower) ||
               jsIncludesL "オートマ".toList (s.toList.map Char.toLower) ||
               jsIncludesL "automatic".toList (s.toList.map Char.toLower) then "AT"
       else "other") := by
  simp only [categorizeTransmission, hs, Bool.false_eq_true, if_false]

/-- C5: `categorizeTransmission` returns one of exactly AT, CVT, MT,
other; the decision is by case-insensitive substring with priority CVT
over the manual tokens over the automatic tokens; non-textual or falsy
input, or text with no indicator, yields other. -/
theorem categorizeTransmission_spec (v : JSVal) :
    (categorizeTransmission v = "AT" ∨ categorizeTransmission v = "CVT" ∨
     categorizeTransmission v = "MT" ∨ categorizeTransmission v = "other") ∧
    (∀ s : String, v = .str s → s ≠ "" →
      ("cvt".toList <:+: s.toList.map Char.toLower → categorizeTransmission v = "CVT") ∧
      (¬ "cvt".toList <:+: s.toList.map Char.toLower →
        ("mt".toList <:+: s.toList.map Char.toLower ∨
         "マニュアル".toList <:+: s.toList.map Char.toLower ∨
         "manual".toList <:+: s.toList.map Char.toLower) →
        categorizeTransmission v = "MT") ∧
      (¬ "cvt".toList <:+: s.toList.map Char.toLower →
       ¬ "mt".toList <:+: s.toList.map Char.toLower →
       ¬ "マニュアル".toList <:+: s.toList.map Char.toLower →
       ¬ "manual".toList <:+: s.toList.map Char.toLower →
        ("at".toList <:+: s.toList.map Char.toLower ∨
         "オートマ".toList <:+: s.toList.map Char.toLower ∨
         "automatic".toList <:+: s.toList.map Char.toLower) →
        categorizeTransmission v = "AT") ∧
      (¬ "cvt".toList <:+: s.toList.map Char.toLower →
       ¬ "mt".toList <:+: s.toList.map Char.toLower →
       ¬ "マニュアル".toList <:+: s.toList.map Char.toLower →
       ¬ "manual".toList <:+: s.toList.map Char.toLower →
       ¬ "at".toList <:+: s.toList.map Char.toLower →
       ¬ "オートマ".toList <:+: s.toList.map Char.toLower →
       ¬ "automatic".toList <:+: s.toList.map Char.toLower →
        categorizeTransmission v = "other")) ∧
    ((∀ s : String, v ≠ .str s) → categorizeTransmission v = "other") ∧
    (v = .str "" → categorizeTransmission v = "other") := by
  refine ⟨?_, ?_, ?_, ?_⟩
  · cases v with
    | num q => simp [categorizeTransmission]
    | null => simp [categorizeTransmission]
    | str s =>
      simp only [categorizeTransmission]
      split
      · tauto
      · split
        · tauto
        · split
          · tauto
          · split
            · tauto
            · tauto
  · intro s hv hs
    subst hv
    have hsb : (s == "") = false := by simp [hs]
    rw [categorizeTransmission_str s hsb]
    refine ⟨?_, ?_, ?_, ?_⟩
    · intro hcvt
      have hb : jsIncludesL "cvt".toList (s.toList.map Char.toLower) = true :=
        (jsIncludesL_iff _ _).mpr hcvt
      rw [if_pos hb]
    · intro hncvt hmt
      have hbn : ¬ jsIncludesL "cvt".toList (s.toList.map Char.toLower) = true := by
        rw [jsIncludesL_iff]
        exact hncvt
      have hb : (jsIncludesL "mt".toList (s.toList.map Char.toLower) ||
          jsIncludesL "マニュアル".toList (s.toList.map Char.toLower) ||
          jsIncludesL "manual".toList (s.toList.map Char.toLower)) = true := by
        simp only [Bool.or_eq_true, jsIncludesL_iff]
        tauto
      rw [if_neg hbn, if_pos hb]
    · intro h1 h2 h3 h4 hat
      have hbn1 : ¬ jsIncludesL "cvt".toList (s.toList.map Char.toLower) = true := by
        rw [jsIncludesL_iff]; exact h1
      have hbn2 : ¬ (jsIncludesL "mt".toList (s.toList.map Char.toLower) ||
          jsIncludesL "マニュアル".toList (s.toList.map Char.toLower) ||
          jsIncludesL "manual".toList (s.toList.map Char.toLower)) = true := by
        simp only [Bool.or_eq_true, jsIncludesL_iff]
        tauto
      have hb : (jsIncludesL "at".toList (s.toList.map Char.toLower) ||
          jsIncludesL "オートマ".toList (s.toList.map Char.toLower) ||
          jsIncludesL "automatic".toList (s.toList.map Char.toLower)) = true := by
        simp only [Bool.or_eq_true, jsIncludesL_iff]
        tauto
      rw [if_neg hbn1, if_neg hbn2, if_pos hb]
    · intro h1 h2 h3 h4 h5 h6 h7
      have hbn1 : ¬ jsIncludesL "cvt".toList (s.toList.map Char.toLower) = true := by
        rw [jsIncludesL_iff]; exact h1
      have hbn2 : ¬ (jsIncludesL "mt".toList (s.toList.map Char.toLower) ||
          jsIncludesL "マニュアル".toList (s.toList.map Char.toLower) ||
          jsIncludesL "manual".toList (s.toList.map Char.toLower)) = true := by
        simp only [Bool.or_eq_true, jsIncludesL_iff]
        tauto
      have hbn3 : ¬ (jsIncludesL "at".toList (s.toList.map Char.toLower) ||
          jsIncludesL "オートマ".toList (s.toList.map Char.toLower) ||
          jsIncludesL "automatic".toList (s.toList.map Char.toLower)) = true := by
        simp only [Bool.or_eq_true, jsIncludesL_iff]
        tauto
      rw [if_neg hbn1, if_neg hbn2, if_neg hbn3]
  · intro hns
    cases v with
    | num q => rfl
    | null => rfl
    | str s => exact absurd rfl (hns s)
  · intro hv
    subst hv
    rfl

/-- C5 witness: a description containing both an automatic token and a
CVT token classifies as CVT. -/
theorem categorizeTransmission_witness :
    categorizeTransmission (.str "AT(CVT)") = "CVT" :=
  ((categorizeTransmission_spec (.str "AT(CVT)")).2.1 "AT(CVT)" rfl (by decide)).1 (by decide)

/-- Splitting off the initial accumulator of an additive fold. -/
theorem foldl_add_init {α : Type} (f : α → ℚ) :
    ∀ (l : List α) (a : ℚ),
      l.foldl (fun acc x => acc + f x) a = a + l.foldl (fun acc x => acc + f x) 0 := by
  intro l
  induction l with
  | nil => intro a; simp
  | cons x xs ih =>
    intro a
    simp only [List.foldl_cons]
    rw [ih (a + f x), ih (0 + f x)]
    ring

/-- The forecaster's indexed additive reduce as a `Finset.range` sum. -/
theorem enumFrom_foldl_eq_sum (F : ℕ → ℚ → ℚ) :
    ∀ (l : List ℚ) (k : ℕ),
      (List.enumFrom k l).foldl (fun acc p => acc + F p.1 p.2) 0 =
        ∑ i in Finset.range l.length, F (k + i) (l.getD i 0) := by
  intro l
  induction l with
  | nil => intro k; simp
  | cons x xs ih =>
    intro k
    simp only [List.enumFrom, List.foldl_cons, List.length_cons]
    have h1 := foldl_add_init (fun (p : ℕ × ℚ) => F p.1 p.2) (List.enumFrom (k + 1) xs)
      (0 + F k x)
    rw [h1, ih (k + 1), Finset.sum_range_succ']
    simp only [List.getD_cons_succ, List.getD_cons_zero, Nat.add_zero]
    have : ∀ i, F (k + (i + 1)) (xs.getD i 0) = F (k + 1 + i) (xs.getD i 0) := by
      intro i
      congr 1
      omega
    rw [Finset.sum_congr rfl (fun i _ => this i)]
    ring

/-- `olsSumX` depends only on the length. -/
theorem olsSumX_eq (means : List ℚ) :
    olsSumX means = ∑ i in Finset.range means.length, (i : ℚ) := by
  have h := enumFrom_foldl_eq_sum (fun i _ => (i : ℚ)) means 0
  simpa [olsSumX, List.enum] using h

/-- Dropping the unused index of an additive fold over `enumFrom`. -/
theorem enumFrom_foldl_snd (xs : List ℚ) :
    ∀ (k : ℕ) (a : ℚ),
      (List.enumFrom k xs).foldl (fun acc p => acc + p.2) a =
        xs.foldl (fun acc d => acc + d) a := by
  induction xs with
  | nil => intro k a; rfl
  | cons x xs ih =>
    intro k a
    simp only [List.enumFrom, List.foldl_cons]
    exact ih (k + 1) (a + x)

/-- `olsSumY` is the sum of the bucket means. -/
theorem olsSumY_eq (means : List ℚ) :
    olsSumY means = ∑ i in Finset.range means.length, means.getD i 0 := by
  have h := enumFrom_foldl_eq_sum (fun _ y => y) means 0
  have h2 := enumFrom_foldl_snd means 0 0
  rw [olsSumY, ← h2]
  simpa using h

/-- `olsSumXY` as a `Finset.range` sum. -/
theorem olsSumXY_eq (means : List ℚ) :
    olsSumXY means = ∑ i in Finset.range means.length, (i : ℚ) * means.getD i 0 := by
  have h := enumFrom_foldl_eq_sum (fun i y => (i : ℚ) * y) means 0
  simpa [olsSumXY, List.enum] using h

/-- `olsSumX2` depends only on the length. -/
theorem olsSumX2_eq (means : List ℚ) :
    olsSumX2 means = ∑ i in Finset.range means.length, (i : ℚ) * (i : ℚ) := by
  have h := enumFrom_foldl_eq_sum (fun i _ => (i : ℚ) * (i : ℚ)) means 0
  simpa [olsSumX2, List.enum] using h

/-- Gauss sum over `0..n-1` in `ℚ`. -/
theorem sum_range_cast (n : ℕ) :
    ∑ i in Finset.range n, (i : ℚ) = n * (n - 1) / 2 := by
  induction n with
  | zero => simp
  | succ m ih =>
    rw [Finset.sum_range_succ, ih]
    push_cast
    ring

/-- Sum of squares over `0..n-1` in `ℚ`. -/
theorem sum_range_sq_cast (n : ℕ) :
    ∑ i in Finset.range n, (i : ℚ) * (i : ℚ) = n * (n - 1) * (2 * n - 1) / 6 := by
  induction n with
  | zero => simp
  | succ m ih =>
    rw [Finset.sum_range_succ, ih]
    push_cast
    ring

/-- C10: for a trend of n ≥ 2 buckets at ordinals 0..n−1 the
least-squares denominator `n·Σx² − (Σx)²` is strictly positive, so the
fitted slope and intercept are well defined; with fewer than 2 buckets
(or outside scraping mode) the forecast is the empty list and no
division is reached. -/
theorem forecast_denominator_spec (means : List ℚ) :
    (2 ≤ means.length →
      0 < (means.length : ℚ) * olsSumX2 means - olsSumX means * olsSumX means) ∧
    (means.length < 2 → ∀ b, forecastData b means = []) ∧
    forecastData false means = [] := by
  refine ⟨?_, ?_, ?_⟩
  · intro h
    rw [olsSumX_eq, olsSumX2_eq, sum_range_cast, sum_range_sq_cast]
    have h2 : (2 : ℚ) ≤ (means.length : ℚ) := by exact_mod_cast h
    have key : (means.length : ℚ) * ((means.length : ℚ) * ((means.length : ℚ) - 1) *
        (2 * (means.length : ℚ) - 1) / 6) -
        (means.length : ℚ) * ((means.length : ℚ) - 1) / 2 *
        ((means.length : ℚ) * ((means.length : ℚ) - 1) / 2) =
        (means.length : ℚ) * (means.length : ℚ) * (((means.length : ℚ) - 1) *
        (((means.length : ℚ) + 1))) / 12 := by
      ring
    rw [key]
    apply div_pos
    · apply mul_pos
      · apply mul_pos <;> linarith
      · apply mul_pos <;> linarith
    · norm_num
  · intro h b
    simp [forecastData, h]
  · simp [forecastData]

/-- C10 witness. -/
theorem forecast_denominator_witness :
    0 < ((3 : ℕ) : ℚ) * olsSumX2 [100, 200, 300] -
      olsSumX [100, 200, 300] * olsSumX [100, 200, 300] ∧
    forecastData true [100] = [] := by
  constructor
  · have h := (forecast_denominator_spec [100, 200, 300]).1 (by norm_num)
    simpa using h
  · exact (forecast_denominator_spec [100]).2.1 (by norm_num) true

/-- C2: with n ≥ 2 buckets the forecaster's slope and intercept are the
ordinary-least-squares formulas over x = 0..n−1 and y = the bucket
means, and exactly 3 forecast prices are produced, the fitted line at
ordinals n, n+1, n+2 rounded to one decimal; on bucket means
[100, 200, 300] the slope is 100, the intercept 100, and the forecasts
[400, 500, 600]. -/
theorem forecastData_ols_spec (means : List ℚ) (h : 2 ≤ means.length) :
    olsSlope means =
      ((means.length : ℚ) * (∑ i in Finset.range means.length, (i : ℚ) * means.getD i 0) -
        (∑ i in Finset.range means.length, (i : ℚ)) *
        (∑ i in Finset.range means.length, means.getD i 0)) /
      ((means.length : ℚ) * (∑ i in Finset.range means.length, (i : ℚ) * (i : ℚ)) -
        (∑ i in Finset.range means.length, (i : ℚ)) *
        (∑ i in Finset.range means.length, (i : ℚ))) ∧
    olsIntercept means =
      ((∑ i in Finset.range means.length, means.getD i 0) -
        olsSlope means * (∑ i in Finset.range means.length, (i : ℚ))) /
      (means.length : ℚ) ∧
    forecastData true means =
      [round1 (olsSlope means * (means.length : ℚ) + olsIntercept means),
       round1 (olsSlope means * ((means.length : ℚ) + 1) + olsIntercept means),
       round1 (olsSlope means * ((means.length : ℚ) + 2) + olsIntercept means)] ∧
    olsSlope [100, 200, 300] = 100 ∧ olsIntercept [100, 200, 300] = 100 ∧
    forecastData true [100, 200, 300] = [400, 500, 600] := by
  have hlen : ¬ means.length < 2 := by omega
  refine ⟨?_, ?_, ?_, ?_, ?_, ?_⟩
  · rw [olsSlope, olsSumX_eq, olsSumY_eq, olsSumXY_eq, olsSumX2_eq]
  · rw [olsIntercept, olsSumY_eq, olsSumX_eq]
  · simp only [forecastData, hlen, or_false, Bool.true_eq_false, false_or, if_neg hlen,
      List.range_succ, List.map_append, List.map_cons, List.map_nil]
    norm_num [List.range_succ]
  · norm_num [olsSlope, olsSumX, olsSumXY, olsSumX2, olsSumY, List.enum, List.enumFrom,
      List.foldl]
  · norm_num [olsIntercept, olsSlope, olsSumX, olsSumXY, olsSumX2, olsSumY, List.enum,
      List.enumFrom, List.foldl]
  · norm_num [forecastData, olsIntercept, olsSlope, olsSumX, olsSumXY, olsSumX2, olsSumY,
      List.enum, List.enumFrom, List.foldl, List.range_succ, round1, round_eq,
      Int.floor_eq_iff]

/-- C2 witness. -/
theorem forecastData_ols_witness :
    forecastData true [100, 200, 300] = [400, 500, 600] :=
  (forecastData_ols_spec [100, 200, 300] (by norm_num)).2.2.2.2.2

/-- Two strings with distinct first characters are distinct. -/
theorem string_head_ne (s t : String) (x y : Char)
    (hx : s.data.head? = some x) (hy : t.data.head? = some y) (hxy : x ≠ y) : s ≠ t := by
  intro h
  rw [h, hy] at hx
  exact hxy (Option.some.inj hx.symm)

/-- The first character of an issue line is that of its literal prefix. -/
theorem append2_head (p a b : String) (x : Char) (h : p.data.head? = some x) :
    ((p ++ a) ++ b).data.head? = some x := by
  rw [String.data_append, String.data_append, List.head?_append, List.head?_append, h]
  rfl

/-- The issues list of a non-empty batch is never empty. -/
theorem ifIssues_ne_nil (L : List String) (msg : String) :
    (if L.length > 0 then L else [msg]) ≠ [] := by
  by_cases h : L.length > 0
  · rw [if_pos h]
    exact List.ne_nil_of_length_pos h
  · rw [if_neg h]
    simp

/-- Length positivity for the four concatenated issue blocks. -/
theorem length_concat4_pos (A B C D : List String)
    (h : 0 < A.length + B.length + C.length + D.length) :
    0 < (((A ++ B) ++ C) ++ D).length := by
  simp only [List.length_append]
  omega

/-- A singleton block holding a different line contributes no count. -/
theorem count_if_block (t l : String) (c : Prop) [Decidable c] (h : l ≠ t) :
    List.count t (if c then [l] else []) = 0 := by
  by_cases hc : c
  · rw [if_pos hc]
    simp [List.count_cons, h]
  · rw [if_neg hc]
    rfl

/-- A singleton block holding the line itself contributes count one. -/
theorem count_self_singleton (t : String) : List.count t [t] = 1 := by
  simp

/-- C6: `checkDataQuality` counts a record as valid iff it fails none
of the four checks (so a batch where every record fails exactly one
check has zero valid records); the score is `100·valid/total` rounded
to one decimal; an empty batch reports zero counts, score 0 and the
single no-data message; each failing category contributes exactly one
summary line, and with no failures the issues list is the single
no-issues message — never empty. -/
theorem checkDataQuality_spec (data : List QItem) :
    checkDataQuality [] = ⟨0, 0, 0, ["データが存在しません"], 0, 0, 0, 0⟩ ∧
    (data ≠ [] →
      (checkDataQuality data).totalCount = data.length ∧
      (checkDataQuality data).validCount = (data.filter (fun it =>
        !priceBad it && !yearBad it && !mileageBad it && !gradeBad it)).length ∧
      (checkDataQuality data).qualityScore =
        round1 (100 * ((checkDataQuality data).validCount : ℚ) / (data.length : ℚ)) ∧
      ((∀ it ∈ data,
          (if priceBad it then 1 else 0) + (if yearBad it then 1 else 0) +
          (if mileageBad it then 1 else 0) + (if gradeBad it then (1 : ℕ) else 0) = 1) →
        (checkDataQuality data).validCount = 0) ∧
      (checkDataQuality data).issues ≠ [] ∧
      (data.countP priceBad = 0 → data.countP yearBad = 0 → data.countP mileageBad = 0 →
        data.countP gradeBad = 0 →
        (checkDataQuality data).issues = ["データ品質に問題はありません"]) ∧
      (0 < data.countP priceBad → (checkDataQuality data).issues.count
        ("価格データに問題: " ++ toString (data.countP priceBad) ++ "件") = 1) ∧
      (0 < data.countP yearBad → (checkDataQuality data).issues.count
        ("年式データに問題: " ++ toString (data.countP yearBad) ++ "件") = 1) ∧
      (0 < data.countP mileageBad → (checkDataQuality data).issues.count
        ("走行距離データに問題: " ++ toString (data.countP mileageBad) ++ "件") = 1) ∧
      (0 < data.countP gradeBad → (checkDataQuality data).issues.count
        ("グレードデータに問題: " ++ toString (data.countP gradeBad) ++ "件") = 1)) := by
  have hPY : ∀ a b : String,
      (("価格データに問題: " ++ a) ++ "件") ≠ (("年式データに問題: " ++ b) ++ "件") :=
    fun a b => string_head_ne _ _ '価' '年' (append2_head _ _ _ _ rfl)
      (append2_head _ _ _ _ rfl) (by decide)
  have hPM : ∀ a b : String,
      (("価格データに問題: " ++ a) ++ "件") ≠ (("走行距離データに問題: " ++ b) ++ "件") :=
    fun a b => string_head_ne _ _ '価' '走' (append2_head _ _ _ _ rfl)
      (append2_head _ _ _ _ rfl) (by decide)
  have hPG : ∀ a b : String,
      (("価格データに問題: " ++ a) ++ "件") ≠ (("グレードデータに問題: " ++ b) ++ "件") :=
    fun a b => string_head_ne _ _ '価' 'グ' (append2_head _ _ _ _ rfl)
      (append2_head _ _ _ _ rfl) (by decide)
  have hYM : ∀ a b : String,
      (("年式データに問題: " ++ a) ++ "件") ≠ (("走行距離データに問題: " ++ b) ++ "件") :=
    fun a b => string_head_ne _ _ '年' '走' (append2_head _ _ _ _ rfl)
      (append2_head _ _ _ _ rfl) (by decide)
  have hYG : ∀ a b : String,
      (("年式データに問題: " ++ a) ++ "件") ≠ (("グレードデータに問題: " ++ b) ++ "件") :=
    fun a b => string_head_ne _ _ '年' 'グ' (append2_head _ _ _ _ rfl)
      (append2_head _ _ _ _ rfl) (by decide)
  have hMG : ∀ a b : String,
      (("走行距離データに問題: " ++ a) ++ "件") ≠ (("グレードデータに問題: " ++ b) ++ "件") :=
    fun a b => string_head_ne _ _ '走' 'グ' (append2_head _ _ _ _ rfl)
      (append2_head _ _ _ _ rfl) (by decide)
  constructor
  · rfl
  intro hne
  have hlen : ¬ data.length = 0 := by simpa [List.length_eq_zero] using hne
  refine ⟨?_, ?_, ?_, ?_, ?_, ?_, ?_, ?_, ?_, ?_⟩
  · simp only [checkDataQuality, if_neg hlen]
  · simp only [checkDataQuality, if_neg hlen, List.countP_eq_length_filter]
    exact congrArg List.length (List.filter_congr (fun it _ => by simp [Bool.not_or]))
  · simp only [checkDataQuality, if_neg hlen]
    congr 1
    ring
  · intro h1
    simp only [checkDataQuality, if_neg hlen]
    rw [List.countP_eq_zero]
    intro it hit
    have h2 := h1 it hit
    by_cases hp : priceBad it <;> by_cases hy : yearBad it <;>
      by_cases hm : mileageBad it <;> by_cases hg : gradeBad it <;>
      simp_all
  · simp only [checkDataQuality, if_neg hlen]
    exact ifIssues_ne_nil _ _
  · intro h1 h2 h3 h4
    simp only [checkDataQuality, if_neg hlen, h1, h2, h3, h4]
    norm_num
  · intro hp
    simp only [checkDataQuality, if_neg hlen, if_pos hp]
    rw [if_pos (length_concat4_pos _ _ _ _
      (by simp only [List.length_cons, List.length_nil]; omega))]
    rw [List.count_append, List.count_append, List.count_append,
      count_self_singleton, count_if_block _ _ _ (hPY _ _).symm,
      count_if_block _ _ _ (hPM _ _).symm, count_if_block _ _ _ (hPG _ _).symm]
  · intro hy
    simp only [checkDataQuality, if_neg hlen, if_pos hy]
    rw [if_pos (length_concat4_pos _ _ _ _
      (by simp only [List.length_cons, List.length_nil]; omega))]
    rw [List.count_append, List.count_append, List.count_append,
      count_self_singleton, count_if_block _ _ _ (hPY _ _),
      count_if_block _ _ _ (hYM _ _).symm, count_if_block _ _ _ (hYG _ _).symm]
  · intro hm
    simp only [checkDataQuality, if_neg hlen, if_pos hm]
    rw [if_pos (length_concat4_pos _ _ _ _
      (by simp only [List.length_cons, List.length_nil]; omega))]
    rw [List.count_append, List.count_append, List.count_append,
      count_self_singleton, count_if_block _ _ _ (hPM _ _),
      count_if_block _ _ _ (hYM _ _), count_if_block _ _ _ (hMG _ _).symm]
  · intro hg
    simp only [checkDataQuality, if_neg hlen, if_pos hg]
    rw [if_pos (length_concat4_pos _ _ _ _
      (by simp only [List.length_cons, List.length_nil]; omega))]
    rw [List.count_append, List.count_append, List.count_append,
      count_self_singleton, count_if_block _ _ _ (hPG _ _),
      count_if_block _ _ _ (hYG _ _), count_if_block _ _ _ (hMG _ _)]

/-- C6 witness: a one-record batch failing exactly the price check has
zero valid records. -/
theorem checkDataQuality_witness :
    (checkDataQuality [⟨none, some 2020, some 1, "A", ""⟩]).validCount = 0 := by
  have h := (checkDataQuality_spec [⟨none, some 2020, some 1, "A", ""⟩]).2 (by simp)
  apply h.2.2.2.1
  intro it hit
  have : it = ⟨none, some 2020, some 1, "A", ""⟩ := by simpa using hit
  subst this
  norm_num [priceBad, yearBad, mileageBad, gradeBad]
  decide

/-- A left additive fold is the initial value plus the list sum. -/
theorem foldl_add_sum (l : List ℚ) : ∀ a : ℚ, l.foldl (· + ·) a = a + l.sum := by
  induction l with
  | nil => intro a; simp
  | cons x xs ih =>
    intro a
    simp only [List.foldl_cons, List.sum_cons]
    rw [ih]
    ring

/-- The left `min` fold (JS `Math.min` over a spread) is a member of
the initial value and the list, and bounds both below. -/
theorem foldl_min_facts (t : List ℚ) : ∀ a : ℚ,
    (t.foldl min a = a ∨ t.foldl min a ∈ t) ∧ t.foldl min a ≤ a ∧
    ∀ x ∈ t, t.foldl min a ≤ x := by
  induction t with
  | nil =>
    intro a
    exact ⟨Or.inl rfl, le_refl a, by simp⟩
  | cons b t ih =>
    intro a
    simp only [List.foldl_cons]
    obtain ⟨hmem, hle, hall⟩ := ih (min a b)
    refine ⟨?_, hle.trans (min_le_left a b), ?_⟩
    · rcases hmem with h | h
      · rcases min_choice a b with hc | hc
        · exact Or.inl (h.trans hc)
        · right
          rw [h, hc]
          exact List.mem_cons_self b t
      · exact Or.inr (List.mem_cons_of_mem b h)
    · intro x hx
      rcases List.mem_cons.mp hx with rfl | hx
      · exact hle.trans (min_le_right a x)
      · exact hall x hx

/-- The left `max` fold (JS `Math.max` over a spread) is a member of
the initial value and the list, and bounds both above. -/
theorem foldl_max_facts (t : List ℚ) : ∀ a : ℚ,
    (t.foldl max a = a ∨ t.foldl max a ∈ t) ∧ a ≤ t.foldl max a ∧
    ∀ x ∈ t, x ≤ t.foldl max a := by
  induction t with
  | nil =>
    intro a
    exact ⟨Or.inl rfl, le_refl a, by simp⟩
  | cons b t ih =>
    intro a
    simp only [List.foldl_cons]
    obtain ⟨hmem, hle, hall⟩ := ih (max a b)
    refine ⟨?_, (le_max_left a b).trans hle, ?_⟩
    · rcases hmem with h | h
      · rcases max_choice a b with hc | hc
        · exact Or.inl (h.trans hc)
        · right
          rw [h, hc]
          exact List.mem_cons_self b t
      · exact Or.inr (List.mem_cons_of_mem b h)
    · intro x hx
      rcases List.mem_cons.mp hx with rfl | hx
      · exact (le_max_right a x).trans hle
      · exact hall x hx

/-- C1: `calculatePriceStats` restricts to the strictly positive
numeric values; if none remain (or the input is empty) every statistic
is zero; otherwise `count` is the number of valid values (not the
input length), `mean` is their average rounded to one decimal, `min`
and `max` are their least and greatest members, and `median` is the
central element of the ascending sort (the average of the two central
elements for an even count), rounded to one decimal.  In particular
the median of [100, 200] is 150 and of [100, 200, 300] is 200. -/
theorem calculatePriceStats_spec (prices : List JSVal) :
    (validPricesOf prices = [] → calculatePriceStats prices = ⟨0, 0, 0, 0, 0⟩) ∧
    (validPricesOf prices ≠ [] →
      (calculatePriceStats prices).count = (validPricesOf prices).length ∧
      (calculatePriceStats prices).mean =
        round1 ((validPricesOf prices).sum / ((validPricesOf prices).length : ℚ)) ∧
      ((calculatePriceStats prices).min ∈ validPricesOf prices ∧
        ∀ x ∈ validPricesOf prices, (calculatePriceStats prices).min ≤ x) ∧
      ((calculatePriceStats prices).max ∈ validPricesOf prices ∧
        ∀ x ∈ validPricesOf prices, x ≤ (calculatePriceStats prices).max) ∧
      (∀ s : List ℚ, s.Perm (validPricesOf prices) → s.Sorted (· ≤ ·) →
        (calculatePriceStats prices).median =
          if s.length % 2 = 0 then
            round1 ((s.getD (s.length / 2 - 1) 0 + s.getD (s.length / 2) 0) / 2)
          else round1 (s.getD (s.length / 2) 0))) ∧
    (calculatePriceStats [.num 100, .num 200]).median = 150 ∧
    (calculatePriceStats [.num 100, .num 200, .num 300]).median = 200 := by
  refine ⟨?_, ?_, ?_, ?_⟩
  · intro hv
    by_cases hlen0 : prices.length = 0
    · simp [calculatePriceStats, hlen0]
    · simp [calculatePriceStats, hlen0, hv]
  · intro hv
    obtain ⟨h, t, hval⟩ : ∃ h t, validPricesOf prices = h :: t := by
      cases hval : validPricesOf prices with
      | nil => exact absurd hval hv
      | cons h t => exact ⟨h, t, rfl⟩
    have hlen0 : ¬ prices.length = 0 := by
      intro h0
      have hnil : prices = [] := List.length_eq_zero.mp h0
      rw [hnil] at hval
      simp [validPricesOf] at hval
    rw [hval]
    refine ⟨?_, ?_, ?_, ?_, ?_⟩
    · simp only [calculatePriceStats, if_neg hlen0, hval]
    · simp only [calculatePriceStats, if_neg hlen0, hval]
      congr 1
      rw [foldl_add_sum]
      ring_nf
    · simp only [calculatePriceStats, if_neg hlen0, hval]
      obtain ⟨hmem, hle, hall⟩ := foldl_min_facts t h
      constructor
      · rcases hmem with hm | hm
        · rw [hm]
          exact List.mem_cons_self h t
        · exact List.mem_cons_of_mem h hm
      · intro x hx
        rcases List.mem_cons.mp hx with rfl | hx
        · exact hle
        · exact hall x hx
    · simp only [calculatePriceStats, if_neg hlen0, hval]
      obtain ⟨hmem, hle, hall⟩ := foldl_max_facts t h
      constructor
      · rcases hmem with hm | hm
        · rw [hm]
          exact List.mem_cons_self h t
        · exact List.mem_cons_of_mem h hm
      · intro x hx
        rcases List.mem_cons.mp hx with rfl | hx
        · exact hle
        · exact hall x hx
    · intro s hperm hsort
      have hs : s = List.insertionSort (· ≤ ·) (h :: t) :=
        List.eq_of_perm_of_sorted (hperm.trans (List.perm_insertionSort _ _).symm)
          hsort (List.sorted_insertionSort _ _)
      subst hs
      simp only [calculatePriceStats, if_neg hlen0, hval]
      exact apply_ite round1 _ _ _
  · norm_num +decide [calculatePriceStats, validPricesOf, round1, round_eq,
      List.insertionSort, List.orderedInsert, List.filterMap, Int.floor_eq_iff]
  · norm_num +decide [calculatePriceStats, validPricesOf, round1, round_eq,
      List.insertionSort, List.orderedInsert, List.filterMap, Int.floor_eq_iff]

/-- C1 witness. -/
theorem calculatePriceStats_witness :
    (calculatePriceStats [.num 100, .num 200]).count = 2 := by
  have hval : validPricesOf [JSVal.num 100, JSVal.num 200] = [100, 200] := by
    norm_num [validPricesOf, List.filterMap]
  have h := ((calculatePriceStats_spec [JSVal.num 100, JSVal.num 200]).2.1
    (by rw [hval]; simp)).1
  rw [h, hval]
  rfl

/-- The dedup comparison agrees with equality of identity keys. -/
theorem sameKey_iff (t u : Listing) : sameKey t u = true ↔ dkey t = dkey u := by
  simp [sameKey, dkey, Prod.ext_iff, and_assoc]

/-- Every listing matches itself under the dedup comparison. -/
theorem sameKey_self (t : Listing) : sameKey t t = true := by
  simp [sameKey]

/-- `findIdx` over an append whose left part has no match. -/
theorem findIdx_append_not (p : Listing → Bool) (rest : List Listing) :
    ∀ pre : List Listing, (∀ t ∈ pre, p t = false) →
      (pre ++ rest).findIdx p = pre.length + rest.findIdx p := by
  intro pre
  induction pre with
  | nil => intro _; simp
  | cons a pre ih =>
    intro hall
    have ha : p a = false := hall a (List.mem_cons_self a pre)
    simp only [List.cons_append, List.findIdx_cons, ha, cond_false, List.length_cons]
    rw [ih (fun t ht => hall t (List.mem_cons_of_mem a ht))]
    omega

/-- `findIdx` over an append whose left part has a match. -/
theorem findIdx_append_any (p : Listing → Bool) (rest : List Listing) :
    ∀ pre : List Listing, pre.any p = true →
      (pre ++ rest).findIdx p = pre.findIdx p ∧ pre.findIdx p < pre.length := by
  intro pre
  induction pre with
  | nil => intro h; simp at h
  | cons a pre ih =>
    intro hany
    by_cases ha : p a = true
    · simp [List.cons_append, List.findIdx_cons, ha]
    · have ha2 : p a = false := by simpa using ha
      have hany2 : pre.any p = true := by simpa [List.any_cons, ha2] using hany
      obtain ⟨h1, h2⟩ := ih hany2
      simp only [List.cons_append, List.findIdx_cons, ha2, cond_false, List.length_cons]
      exact ⟨by rw [h1], by omega⟩

/-- `keepFirsts` only reads the membership of the seen set. -/
theorem keepFirsts_congr : ∀ (xs : List Listing) (s1 s2 : List (ℚ × ℚ × ℚ × String)),
    (∀ k, k ∈ s1 ↔ k ∈ s2) → keepFirsts xs s1 = keepFirsts xs s2 := by
  intro xs
  induction xs with
  | nil => intro s1 s2 _; rfl
  | cons x xs ih =>
    intro s1 s2 hiff
    simp only [keepFirsts]
    by_cases hk : dkey x ∈ s1
    · rw [if_pos hk, if_pos ((hiff _).mp hk)]
      exact ih s1 s2 hiff
    · rw [if_neg hk, if_neg (fun hx2 => hk ((hiff _).mpr hx2))]
      congr 1
      apply ih
      intro k
      simp [hiff k]

/-- The generalized dedup invariant: filtering the enumerated suffix
against first-match indices over the whole list keeps exactly the
first occurrence of each key not already seen in the prefix. -/
theorem dedupAux_eq : ∀ (xs pre : List Listing),
    ((List.enumFrom pre.length xs).filter
      (fun p => (pre ++ xs).findIdx (fun t => sameKey t p.2) == p.1)).map Prod.snd =
    keepFirsts xs (pre.map dkey) := by
  intro xs
  induction xs with
  | nil => intro pre; rfl
  | cons x xs ih =>
    intro pre
    have hassoc : pre ++ x :: xs = (pre ++ [x]) ++ xs := by simp
    have hlen2 : (pre ++ [x]).length = pre.length + 1 := by simp
    by_cases hk : dkey x ∈ pre.map dkey
    · have hany : pre.any (fun t => sameKey t x) = true := by
        rw [List.any_eq_true]
        obtain ⟨t, ht, hkey⟩ := List.mem_map.mp hk
        exact ⟨t, ht, (sameKey_iff t x).mpr hkey⟩
      obtain ⟨hfi, hlt⟩ := findIdx_append_any _ (x :: xs) pre hany
      have hcond : ((pre ++ x :: xs).findIdx (fun t => sameKey t x) == pre.length) = false := by
        rw [hfi]
        simp only [beq_eq_false_iff_ne, ne_eq]
        omega
      simp only [List.enumFrom, List.filter_cons, hcond, Bool.false_eq_true, if_false,
        keepFirsts, if_pos hk]
      rw [hassoc, ← hlen2, ih (pre ++ [x])]
      apply keepFirsts_congr
      intro k
      simp only [List.map_append, List.map_cons, List.map_nil, List.mem_append,
        List.mem_cons, List.not_mem_nil, or_false]
      constructor
      · rintro (hmem | rfl)
        · exact hmem
        · exact hk
      · exact Or.inl
    · have hall : ∀ t ∈ pre, (fun t => sameKey t x) t = false := by
        intro t ht
        by_contra hc
        simp only [Bool.not_eq_false] at hc
        exact hk (List.mem_map.mpr ⟨t, ht, (sameKey_iff t x).mp hc⟩)
      have hfi := findIdx_append_not _ (x :: xs) pre hall
      have hx0 : (x :: xs).findIdx (fun t => sameKey t x) = 0 := by
        simp [List.findIdx_cons, sameKey_self]
      have hcond : ((pre ++ x :: xs).findIdx (fun t => sameKey t x) == pre.length) = true := by
        rw [hfi, hx0]
        simp
      simp only [List.enumFrom, List.filter_cons, hcond, if_true, List.map_cons,
        keepFirsts, if_neg hk]
      congr 1
      rw [hassoc, ← hlen2, ih (pre ++ [x])]
      apply keepFirsts_congr
      intro k
      simp only [List.map_append, List.map_cons, List.map_nil, List.mem_append,
        List.mem_cons, List.not_mem_nil, or_false]
      tauto

/-- C7: deduplication keeps exactly the first occurrence, in input
order, of each (price, modelYear, mileageKm, normalizedGrade) key; in
particular two listings differing only in the original grade collapse
to the first one. -/
theorem dedupListings_spec :
    (∀ xs : List Listing, dedupListings xs = keepFirsts xs []) ∧
    dedupListings
      [⟨500, 2020, 30000, "ベース", "RC ベース", "AT", "なし"⟩,
       ⟨500, 2020, 30000, "ベース", "RC 別グレード", "AT", "なし"⟩] =
      [⟨500, 2020, 30000, "ベース", "RC ベース", "AT", "なし"⟩] := by
  constructor
  · intro xs
    have h := dedupAux_eq xs []
    simpa [dedupListings, List.enum] using h
  · decide

/-- A guard chain of early-`false` returns equals the conjunction of
the negated guards (with the transmission toggle un-negated). -/
theorem guard_chain (b1 b2 : Bool) (c3 : Prop) [Decidable c3] (b4 b5 b6 b7 : Bool) :
    (if b1 then false else if b2 then false else if c3 then false
     else if b4 then false else if !b5 then false else if b6 then false
     else if b7 then false else true) =
    (!b1 && (!b2 && (!(decide c3) && (!b4 && (b5 && (!b6 && !b7)))))) := by
  by_cases h3 : c3 <;> cases b1 <;> cases b2 <;> cases b4 <;> cases b5 <;> cases b6 <;>
    cases b7 <;> simp [h3]

/-- `filteredData` filters by the conjunction of the six predicates. -/
theorem filteredData_eq (P : FilterParams) (data : List Listing) :
    filteredData P data = data.filter (fun item => (predList P).all (fun p => p item)) := by
  apply List.filter_congr
  intro item _
  simp only [predList, List.all_cons, List.all_nil, Bool.and_true, gradePass, yearPass,
    mileagePass, pricePass, transPass, repairPass]
  exact guard_chain _ _ _ _ _ _ _

/-- Chained filtering by a list of predicates is one filter by their
conjunction. -/
theorem foldl_filter {α : Type} (l : List (α → Bool)) :
    ∀ xs : List α,
      l.foldl (fun acc p => acc.filter p) xs = xs.filter (fun x => l.all (fun p => p x)) := by
  induction l with
  | nil =>
    intro xs
    simp [List.all_nil]
  | cons p l ih =>
    intro xs
    simp only [List.foldl_cons]
    rw [ih (xs.filter p), List.filter_filter]
    apply List.filter_congr
    intro x _
    simp [List.all_cons, Bool.and_comm]

/-- `List.all` is invariant under permutation of the predicate list. -/
theorem all_perm {α : Type} {l l2 : List (α → Bool)} (h : l.Perm l2) (x : α) :
    l.all (fun p => p x) = l2.all (fun p => p x) := by
  induction h with
  | nil => rfl
  | cons p _ ih => simp [List.all_cons, ih]
  | swap p q l => simp [List.all_cons, Bool.and_left_comm]
  | trans _ _ ih1 ih2 => rw [ih1, ih2]

/-- C8: a listing is in `filteredData` iff it is in the input and
satisfies all six predicates — grade membership (empty selected set
matches everything), inclusive model-year range, mileage ceiling,
inclusive price range, transmission-category toggle, and the
repair-history mode; and because the result is this pure conjunction,
folding the predicates over the collection in any order gives exactly
`filteredData`. -/
theorem filteredData_spec :
    (∀ (P : FilterParams) (data : List Listing) (item : Listing),
      item ∈ filteredData P data ↔
        item ∈ data ∧ gradePass P item = true ∧ yearPass P item = true ∧
        mileagePass P item = true ∧ pricePass P item = true ∧
        transPass P item = true ∧ repairPass P item = true) ∧
    (∀ (P : FilterParams) (data : List Listing) (l : List (Listing → Bool)),
      l.Perm (predList P) →
      l.foldl (fun acc p => acc.filter p) data = filteredData P data) := by
  constructor
  · intro P data item
    rw [filteredData_eq, List.mem_filter]
    simp [predList, List.all_cons, and_assoc]
  · intro P data l hperm
    rw [foldl_filter, filteredData_eq]
    apply List.filter_congr
    intro x _
    exact all_perm hperm x

/-- C8 witness: the six predicates applied in reverse order agree with
`filteredData` on a concrete collection. -/
theorem filteredData_witness :
    (predList ⟨true, [], 2010, 2026, 1000000, 0, 3000, ⟨true, true, true, true⟩,
        .rAll⟩).reverse.foldl
      (fun acc p => acc.filter p) [⟨500, 2020, 30000, "ベース", "RC", "AT", "なし"⟩] =
    filteredData ⟨true, [], 2010, 2026, 1000000, 0, 3000, ⟨true, true, true, true⟩, .rAll⟩
      [⟨500, 2020, 30000, "ベース", "RC", "AT", "なし"⟩] :=
  filteredData_spec.2 _ _ _ (List.reverse_perm _)

end Carsensor
